import Mathlib

/-! Verification of the month-day iterator core (`src/cal/iter/month_into_days.rs`).

The core is the span resolver (`DaySpan::get_range`) and the bidirectional
iterator `MonthDays` over a `Range<i8>` cursor.  The external collaborators
(`YearMonth::day_count`, `local::Date::ymd`, the `Month` unit type) are not
part of the given source, so they are modelled from the spec and marked as
such below.  Day numbers are `i8` in the source; they are embedded as `Int`,
which is exact here: every arithmetic operation the core performs on a
representable `i8` range stays in range (`day_count + 1 ≤ 32`, and the cursor
only increments `start` when `start < stop ≤ 127`, resp. decrements `stop`
when `start < stop`), so no wrap-around is reachable.
-/

namespace Datetime

/-- The calendar's month unit type (`cal::unit::Month`). -/
inductive Month
  | January | February | March | April | May | June
  | July | August | September | October | November | December
deriving DecidableEq

/-- Modelled from the spec: the leap-year rule of the external year
collaborator (standard Gregorian), which feeds the day-count query. -/
def isLeapYear (y : Int) : Bool :=
  (y % 4 == 0 && y % 100 != 0) || (y % 400 == 0)

/-- Modelled from the spec: the number of days of each month (28–31),
the external month-length computation the core treats as opaque. -/
def Month.daysInMonth (m : Month) (leap : Bool) : Int :=
  match m with
  | .January => 31
  | .February => if leap then 29 else 28
  | .March => 31
  | .April => 30
  | .May => 31
  | .June => 30
  | .July => 31
  | .August => 31
  | .September => 30
  | .October => 31
  | .November => 30
  | .December => 31

/-- The type `cal::compound::YearMonth`: an immutable value identifying one calendar
month of one year, exposing `year` and `month` fields. -/
structure YearMonth where
  year : Int
  month : Month
deriving DecidableEq

/-- Modelled from the spec: the day-count query on a year-month, returning
the number of days (28–31) in that month. -/
def YearMonth.day_count (ym : YearMonth) : Int :=
  ym.month.daysInMonth (isLeapYear ym.year)

/-- The type `std::ops::Range<i8>`: a half-open interval `[start, stop)`.
The field written `end` in Rust is named `stop` here (`end` is a keyword). -/
structure Range where
  start : Int
  stop : Int
deriving DecidableEq

/-- The method `Range::next` of the standard range adapter: if the range is non-empty,
yield `start` and increment it; otherwise yield nothing and stay put.
State passing makes the `&mut self` explicit. -/
def Range.next (r : Range) : Option Int × Range :=
  if r.start < r.stop then (some r.start, ⟨r.start + 1, r.stop⟩) else (none, r)

/-- The method `Range::next_back` of the standard range adapter: if the range is
non-empty, decrement `stop` and yield the decremented value; otherwise yield
nothing and stay put. -/
def Range.next_back (r : Range) : Option Int × Range :=
  if r.start < r.stop then (some (r.stop - 1), ⟨r.start, r.stop - 1⟩) else (none, r)

/-- Modelled from the spec: `local::Date`, a validated (year, month, day)
triple, the external produced value. -/
structure Date where
  year : Int
  month : Month
  day : Int
deriving DecidableEq

/-- Modelled from the spec: the fallible constructor `local::Date::ymd`,
composed with `.ok()` as the source does — it signals invalidity (here:
the day is outside the true calendar range `1 ..= day_count` of the month)
by returning `none` rather than producing a garbage value. -/
def Date.ymd (y : Int) (m : Month) (d : Int) : Option Date :=
  if 1 ≤ d ∧ d ≤ m.daysInMonth (isLeapYear y) then some ⟨y, m, d⟩ else none

/-- The four `DaySpan` variants, as the explicit tagged union the spec asks
for: `RangeFull`, `RangeFrom`, `RangeTo` and `Range` in the source. -/
inductive DaySpan
  | Full
  | From (start : Int)
  | To (stop : Int)
  | Explicit (start stop : Int)
deriving DecidableEq

/-- The resolver `DaySpan::get_range`, one arm per source `impl`:
`RangeFull → 1 .. day_count + 1`, `RangeFrom → start .. day_count + 1`,
`RangeTo → 1 .. end`, `Range → self.clone()`. -/
def DaySpan.get_range : DaySpan → YearMonth → Range
  | .Full, ym => ⟨1, ym.day_count + 1⟩
  | .From s, ym => ⟨s, ym.day_count + 1⟩
  | .To e, _ => ⟨1, e⟩
  | .Explicit s e, _ => ⟨s, e⟩

/-- The iterator `MonthDays`: the iterator state, a copy of the year-month plus the
resolved `Range` cursor. -/
structure MonthDays where
  ym : YearMonth
  range : Range
deriving DecidableEq

/-- The constructor `DaysIter::days` for `YearMonth`: build the iterator with the span
resolved once against `self`. -/
def YearMonth.days (ym : YearMonth) (span : DaySpan) : MonthDays :=
  ⟨ym, span.get_range ym⟩

/-- The method `Iterator::next` for `MonthDays`:
`self.range.next().and_then(|d| local::Date::ymd(self.ym.year, self.ym.month, d).ok())`.
The cursor advances first; the day it yields (if any) is fed to the fallible
date constructor, whose failure collapses to `none`. -/
def MonthDays.next (it : MonthDays) : Option Date × MonthDays :=
  let p := it.range.next
  (p.1.bind (fun d => Date.ymd it.ym.year it.ym.month d), { it with range := p.2 })

/-- The method `DoubleEndedIterator::next_back` for `MonthDays`: same shape as `next`,
driven by `Range::next_back`. -/
def MonthDays.next_back (it : MonthDays) : Option Date × MonthDays :=
  let p := it.range.next_back
  (p.1.bind (fun d => Date.ymd it.ym.year it.ym.month d), { it with range := p.2 })

/-- A step direction: a forward `next()` call or a backward `next_back()`
call, used to talk about arbitrary interleavings. -/
inductive Dir
  | fwd
  | bwd
deriving DecidableEq

/-- One step of the iterator in the given direction. -/
def MonthDays.step (it : MonthDays) : Dir → Option Date × MonthDays
  | .fwd => it.next
  | .bwd => it.next_back

/-- One step of the bare cursor in the given direction. -/
def Range.step (r : Range) : Dir → Option Int × Range
  | .fwd => r.next
  | .bwd => r.next_back

/-- Drive the iterator through a list of interleaved calls, recording every
call's output (including the `none`s). -/
def MonthDays.runOutputs (it : MonthDays) : List Dir → List (Option Date)
  | [] => []
  | d :: ds => (it.step d).1 :: (it.step d).2.runOutputs ds

/-- Drive the bare cursor through a list of interleaved calls, recording the
day numbers it consumes. -/
def Range.runConsumed (r : Range) : List Dir → List Int
  | [] => []
  | d :: ds =>
    match (r.step d).1 with
    | some c => c :: (r.step d).2.runConsumed ds
    | none => (r.step d).2.runConsumed ds

/-- Pure forward consumption with explicit fuel: collect each date yielded by
`next`, stopping at the first `none`. -/
def MonthDays.drainAux : Nat → MonthDays → List Date
  | 0, _ => []
  | n + 1, it =>
    match it.next with
    | (some d, it') => d :: drainAux n it'
    | (none, _) => []

/-- The number of day numbers left in the cursor. -/
def MonthDays.size (it : MonthDays) : Nat := (it.range.stop - it.range.start).toNat

/-- Consume the iterator purely by forward `next()` calls until it first
reports end, collecting the yielded dates.  `size` steps always suffice:
every successful step shrinks the cursor by one. -/
def MonthDays.drain (it : MonthDays) : List Date := MonthDays.drainAux it.size it

/-- Pure backward consumption with explicit fuel. -/
def MonthDays.drainBackAux : Nat → MonthDays → List Date
  | 0, _ => []
  | n + 1, it =>
    match it.next_back with
    | (some d, it') => d :: drainBackAux n it'
    | (none, _) => []

/-- Consume the iterator purely by backward `next_back()` calls until it
first reports end, collecting the yielded dates. -/
def MonthDays.drainBack (it : MonthDays) : List Date :=
  MonthDays.drainBackAux it.size it

/-! ### Helper lemmas -/

/-- The spec-modelled day count always lies in 28–31. -/
theorem YearMonth.day_count_bounds (ym : YearMonth) :
    28 ≤ ym.day_count ∧ ym.day_count ≤ 31 := by
  cases ym with
  | mk y m =>
    cases m
    all_goals simp only [YearMonth.day_count, Month.daysInMonth]
    all_goals try split
    all_goals omega

/-- A successfully constructed date carries exactly the day it was asked for. -/
theorem Date.ymd_day {y : Int} {m : Month} {d : Int} {dt : Date}
    (h : Date.ymd y m d = some dt) : dt.day = d := by
  unfold Date.ymd at h
  split at h
  · cases h; rfl
  · simp at h

/-- Date construction succeeds on every day inside the month's true range. -/
theorem Date.ymd_valid {y : Int} {m : Month} {d : Int}
    (h1 : 1 ≤ d) (h2 : d ≤ m.daysInMonth (isLeapYear y)) :
    Date.ymd y m d = some ⟨y, m, d⟩ := by
  unfold Date.ymd
  rw [if_pos ⟨h1, h2⟩]

/-- Date construction fails on every day beyond the month's true range. -/
theorem Date.ymd_invalid {y : Int} {m : Month} {d : Int}
    (h : d > m.daysInMonth (isLeapYear y) ∨ d < 1) :
    Date.ymd y m d = none := by
  unfold Date.ymd
  rw [if_neg]
  omega

/-- Forward drain of a cursor `[start, start + n)` whose days are all valid
for the month enumerates them in ascending order. -/
theorem MonthDays.drainAux_spec (n : Nat) :
    ∀ it : MonthDays,
      it.range.stop = it.range.start + n →
      1 ≤ it.range.start →
      it.range.stop ≤ it.ym.day_count + 1 →
      MonthDays.drainAux n it =
        (List.range n).map
          (fun i => ⟨it.ym.year, it.ym.month, it.range.start + i⟩) := by
  induction n with
  | zero =>
    intro it _ _ _
    simp [MonthDays.drainAux]
  | succ n ih =>
    intro it h1 h2 h3
    have hlt : it.range.start < it.range.stop := by omega
    have hday : it.range.start ≤ it.ym.month.daysInMonth (isLeapYear it.ym.year) := by
      have hdc : it.ym.day_count = it.ym.month.daysInMonth (isLeapYear it.ym.year) := rfl
      omega
    have hval : Date.ymd it.ym.year it.ym.month it.range.start =
        some ⟨it.ym.year, it.ym.month, it.range.start⟩ :=
      Date.ymd_valid h2 hday
    have hnext : it.next =
        (some ⟨it.ym.year, it.ym.month, it.range.start⟩,
         ⟨it.ym, ⟨it.range.start + 1, it.range.stop⟩⟩) := by
      simp [MonthDays.next, Range.next, hlt, hval]
    rw [MonthDays.drainAux, hnext]
    have hrec := ih ⟨it.ym, ⟨it.range.start + 1, it.range.stop⟩⟩
      (by simp only []; push_cast at h1 ⊢; omega) (by simp only []; omega)
      (by simp only []; omega)
    simp only at hrec
    dsimp only
    rw [hrec, List.range_succ_eq_map, List.map_cons, List.map_map]
    congr 1
    · simp
    · apply List.map_congr_left
      intro i _
      simp [Function.comp]
      ring

/-! ### Claims -/

/-- C1: for every year-month and every interval `[s, e)` with
`1 ≤ s ≤ e ≤ day_count + 1`, consuming the iterator purely by forward
`next()` calls yields exactly `e - s` dates, whose day numbers are
`s, s+1, …, e-1` in that order. -/
theorem C1_forward_enumeration (ym : YearMonth) (s e : Int)
    (h1 : 1 ≤ s) (h2 : s ≤ e) (h3 : e ≤ ym.day_count + 1) :
    (MonthDays.drain ⟨ym, ⟨s, e⟩⟩).length = (e - s).toNat ∧
    (MonthDays.drain ⟨ym, ⟨s, e⟩⟩).map Date.day =
      (List.range (e - s).toNat).map (fun i : Nat => s + (i : Int)) := by
  have hn : (⟨ym, ⟨s, e⟩⟩ : MonthDays).range.stop =
      (⟨ym, ⟨s, e⟩⟩ : MonthDays).range.start + ((e - s).toNat : Int) := by
    simp only []
    omega
  have hspec := MonthDays.drainAux_spec (e - s).toNat ⟨ym, ⟨s, e⟩⟩ hn h1 h3
  simp only at hspec
  unfold MonthDays.drain MonthDays.size
  simp only []
  rw [hspec]
  constructor
  · simp
  · rw [List.map_map]
    apply List.map_congr_left
    intro i _
    simp [Function.comp]

/-- Witness for C1 at September 1999 with the interval `[10, 20)`. -/
theorem C1_forward_enumeration_witness :
    (1 : Int) ≤ 10 ∧ (10 : Int) ≤ 20 ∧
    (20 : Int) ≤ (⟨1999, .September⟩ : YearMonth).day_count + 1 ∧
    ((MonthDays.drain ⟨⟨1999, .September⟩, ⟨10, 20⟩⟩).length =
        ((20 : Int) - 10).toNat ∧
      (MonthDays.drain ⟨⟨1999, .September⟩, ⟨10, 20⟩⟩).map Date.day =
        (List.range ((20 : Int) - 10).toNat).map
          (fun i : Nat => (10 : Int) + (i : Int))) :=
  ⟨by decide, by decide, by decide,
   C1_forward_enumeration ⟨1999, .September⟩ 10 20 (by decide) (by decide) (by decide)⟩

/-- C2: for every year-month, the span resolver maps each of the four span
variants to exactly the stated half-open interval of day numbers: the full
span to `[1, day_count + 1)`, `From(start)` to `[start, day_count + 1)`,
`To(end_exclusive)` to `[1, end_exclusive)`, and an explicit span to
`[start, end_exclusive)` verbatim. -/
theorem C2_get_range_variants (ym : YearMonth) (s e : Int) :
    DaySpan.Full.get_range ym = ⟨1, ym.day_count + 1⟩ ∧
    (DaySpan.From s).get_range ym = ⟨s, ym.day_count + 1⟩ ∧
    (DaySpan.To e).get_range ym = ⟨1, e⟩ ∧
    (DaySpan.Explicit s e).get_range ym = ⟨s, e⟩ :=
  ⟨rfl, rfl, rfl, rfl⟩

/-- C8: span resolution is total — `get_range` is a total Lean function, so
it never fails or raises — and no variant clamps or validates `start` or
`end_exclusive` against the day count or against each other: the bounds
`s`, `e` below range over all integers (including values above the day count
or below 1) and are returned verbatim, and the `To`/`Explicit` results do
not depend on the year-month at all. -/
theorem C8_resolution_total_no_validation (ym ym' : YearMonth) (s e : Int) :
    ((DaySpan.From s).get_range ym).start = s ∧
    ((DaySpan.To e).get_range ym).stop = e ∧
    ((DaySpan.Explicit s e).get_range ym).start = s ∧
    ((DaySpan.Explicit s e).get_range ym).stop = e ∧
    (DaySpan.To e).get_range ym = (DaySpan.To e).get_range ym' ∧
    (DaySpan.Explicit s e).get_range ym = (DaySpan.Explicit s e).get_range ym' ∧
    DaySpan.Full.get_range ym = ⟨1, ym.day_count + 1⟩ ∧
    (DaySpan.From s).get_range ym = ⟨s, ym.day_count + 1⟩ :=
  ⟨rfl, rfl, rfl, rfl, rfl, rfl, rfl, rfl⟩

/-- C10: neither a forward `next()` step nor a backward `next_back()` step
modifies the stored year-month; the successor state is exactly the old one
with only the `range` cursor replaced by the stepped cursor. -/
theorem C10_frame_ym_unchanged (it : MonthDays) :
    (it.next).2.ym = it.ym ∧
    (it.next_back).2.ym = it.ym ∧
    (∀ dir : Dir, (it.step dir).2 = ⟨it.ym, (it.range.step dir).2⟩) := by
  refine ⟨rfl, rfl, ?_⟩
  intro dir
  cases dir <;> rfl

/-- C9: on September 1999 with the explicit span `[0, 3)`, the first forward
step consumes day 0, whose construction fails, so the step reports end; yet
the next forward step yields the date of September 1, 1999 — a construction
failure consumes its day but does not leave the iterator permanently
exhausted. -/
theorem C9_failure_then_success :
    Date.ymd 1999 Month.September 0 = none ∧
    ((YearMonth.days ⟨1999, .September⟩ (.Explicit 0 3)).next).1 = none ∧
    ((((YearMonth.days ⟨1999, .September⟩ (.Explicit 0 3)).next).2).next).1 =
      some ⟨1999, Month.September, 1⟩ := by
  decide

/-- C3: on a non-empty cursor, the forward step consumes the smallest
remaining day number and the backward step the largest; if date construction
fails on the consumed day, the step reports `none` — exactly the output of a
step on an exhausted cursor, so the failure is observationally
indistinguishable from normal exhaustion. -/
theorem C3_construction_failure_ends_sequence (it : MonthDays) :
    (it.range.start < it.range.stop →
      (it.range.next).1 = some it.range.start ∧
      (it.range.next_back).1 = some (it.range.stop - 1) ∧
      (Date.ymd it.ym.year it.ym.month it.range.start = none →
        (it.next).1 = none) ∧
      (Date.ymd it.ym.year it.ym.month (it.range.stop - 1) = none →
        (it.next_back).1 = none)) ∧
    (it.range.stop ≤ it.range.start →
      (it.next).1 = none ∧ (it.next_back).1 = none) := by
  constructor
  · intro hlt
    refine ⟨?_, ?_, ?_, ?_⟩
    · simp [Range.next, hlt]
    · simp [Range.next_back, hlt]
    · intro hf
      simp [MonthDays.next, Range.next, hlt, hf]
    · intro hf
      simp [MonthDays.next_back, Range.next_back, hlt, hf]
  · intro hge
    have hnlt : ¬ it.range.start < it.range.stop := by omega
    exact ⟨by simp [MonthDays.next, Range.next, hnlt],
           by simp [MonthDays.next_back, Range.next_back, hnlt]⟩

/-- Witness for C3 on the cursor `[35, 40)` over September 1999, where
construction of day 35 fails. -/
theorem C3_construction_failure_ends_sequence_witness :
    ((⟨⟨1999, .September⟩, ⟨35, 40⟩⟩ : MonthDays).range.start <
        (⟨⟨1999, .September⟩, ⟨35, 40⟩⟩ : MonthDays).range.stop) ∧
    Date.ymd 1999 Month.September 35 = none ∧
    ((⟨⟨1999, .September⟩, ⟨35, 40⟩⟩ : MonthDays).next).1 = none :=
  ⟨by decide, by decide,
   (((C3_construction_failure_ends_sequence ⟨⟨1999, .September⟩, ⟨35, 40⟩⟩).1
      (by decide)).2.2.1) (by decide)⟩

/-- C7: the explicit span `[35, 40)` on a 30-day month resolves to a cursor
that is non-empty as day numbers, yet every element fails date construction,
the first forward step reports end immediately, and forward consumption
yields zero dates. -/
theorem C7_explicit_span_beyond_month (ym : YearMonth) (h : ym.day_count = 30) :
    (ym.days (DaySpan.Explicit 35 40)).range.start <
      (ym.days (DaySpan.Explicit 35 40)).range.stop ∧
    (∀ d : Int, 35 ≤ d → d < 40 → Date.ymd ym.year ym.month d = none) ∧
    ((ym.days (DaySpan.Explicit 35 40)).next).1 = none ∧
    (ym.days (DaySpan.Explicit 35 40)).drain = [] := by
  have hdc : ym.month.daysInMonth (isLeapYear ym.year) = 30 := h
  have hfail : ∀ d : Int, 35 ≤ d → d < 40 → Date.ymd ym.year ym.month d = none := by
    intro d hd _
    apply Date.ymd_invalid
    left
    omega
  have h35 := hfail 35 (by norm_num) (by norm_num)
  have hnext : (ym.days (DaySpan.Explicit 35 40)).next = (none, ⟨ym, ⟨36, 40⟩⟩) := by
    simp [YearMonth.days, DaySpan.get_range, MonthDays.next, Range.next, h35,
      (by norm_num : (35 : Int) < 40)]
  refine ⟨by norm_num [YearMonth.days, DaySpan.get_range], hfail, ?_, ?_⟩
  · rw [hnext]
  · have hsize : (ym.days (DaySpan.Explicit 35 40)).size = 5 := rfl
    rw [MonthDays.drain, hsize, show (5 : Nat) = 4 + 1 from rfl,
      MonthDays.drainAux, hnext]

/-- Witness for C7 at September 1999, a 30-day month. -/
theorem C7_explicit_span_beyond_month_witness :
    (⟨1999, .September⟩ : YearMonth).day_count = 30 ∧
    (((⟨1999, .September⟩ : YearMonth).days (DaySpan.Explicit 35 40)).range.start <
        ((⟨1999, .September⟩ : YearMonth).days (DaySpan.Explicit 35 40)).range.stop ∧
      (∀ d : Int, 35 ≤ d → d < 40 →
        Date.ymd (1999 : Int) Month.September d = none) ∧
      (((⟨1999, .September⟩ : YearMonth).days (DaySpan.Explicit 35 40)).next).1 = none ∧
      ((⟨1999, .September⟩ : YearMonth).days (DaySpan.Explicit 35 40)).drain = []) :=
  ⟨by decide, C7_explicit_span_beyond_month ⟨1999, .September⟩ (by decide)⟩

/-- Reversing the image of `List.range n` re-indexes it by `n - 1 - i`. -/
theorem map_range_reverse {α : Type} (f : Nat → α) (n : Nat) :
    ((List.range n).map f).reverse = (List.range n).map (fun i => f (n - 1 - i)) := by
  have h0 : (List.range n).reverse = List.map (fun i => n - 1 - i) (List.range n) := by
    rw [List.range_eq_range', List.reverse_range', ← List.range_eq_range']
    apply List.map_congr_left
    intro i _
    omega
  rw [← List.map_reverse, h0, List.map_map]
  apply List.map_congr_left
  intro i _
  simp [Function.comp]

/-- Backward drain of a cursor `[start, start + n)` whose days are all valid
for the month enumerates them in descending order. -/
theorem MonthDays.drainBackAux_spec (n : Nat) :
    ∀ it : MonthDays,
      it.range.stop = it.range.start + n →
      1 ≤ it.range.start →
      it.range.stop ≤ it.ym.day_count + 1 →
      MonthDays.drainBackAux n it =
        (List.range n).map
          (fun i => ⟨it.ym.year, it.ym.month, it.range.stop - 1 - i⟩) := by
  induction n with
  | zero =>
    intro it _ _ _
    simp [MonthDays.drainBackAux]
  | succ n ih =>
    intro it h1 h2 h3
    have hlt : it.range.start < it.range.stop := by omega
    have hdc : it.ym.day_count = it.ym.month.daysInMonth (isLeapYear it.ym.year) := rfl
    have hval : Date.ymd it.ym.year it.ym.month (it.range.stop - 1) =
        some ⟨it.ym.year, it.ym.month, it.range.stop - 1⟩ :=
      Date.ymd_valid (by omega) (by omega)
    have hnext : it.next_back =
        (some ⟨it.ym.year, it.ym.month, it.range.stop - 1⟩,
         ⟨it.ym, ⟨it.range.start, it.range.stop - 1⟩⟩) := by
      simp [MonthDays.next_back, Range.next_back, hlt, hval]
    rw [MonthDays.drainBackAux, hnext]
    have hrec := ih ⟨it.ym, ⟨it.range.start, it.range.stop - 1⟩⟩
      (by simp only []; push_cast at h1 ⊢; omega) (by simp only []; omega)
      (by simp only []; omega)
    simp only at hrec
    dsimp only
    rw [hrec, List.range_succ_eq_map, List.map_cons, List.map_map]
    congr 1
    · simp
    · apply List.map_congr_left
      intro i _
      simp [Function.comp]
      ring

/-- C6: on a 30-day month with the unbounded span, full backward consumption
yields exactly the reverse of full forward consumption — the same 30 dates in
descending day order — and the first backward result equals the last forward
result. -/
theorem C6_backward_descending (ym : YearMonth) (h : ym.day_count = 30) :
    (ym.days DaySpan.Full).drainBack = ((ym.days DaySpan.Full).drain).reverse ∧
    ((ym.days DaySpan.Full).drainBack).length = 30 ∧
    ((ym.days DaySpan.Full).drainBack).map Date.day =
      (List.range 30).map (fun i : Nat => (30 : Int) - (i : Int)) ∧
    ((ym.days DaySpan.Full).drainBack).head? =
      ((ym.days DaySpan.Full).drain).getLast? := by
  have hit : ym.days DaySpan.Full = ⟨ym, ⟨1, 31⟩⟩ := by
    simp [YearMonth.days, DaySpan.get_range, h]
  have hfwd : (⟨ym, ⟨1, 31⟩⟩ : MonthDays).drain =
      (List.range 30).map (fun i => ⟨ym.year, ym.month, 1 + (i : Int)⟩) := by
    have := MonthDays.drainAux_spec 30 ⟨ym, ⟨1, 31⟩⟩ (by norm_num) (by norm_num)
      (by simp only []; omega)
    simpa [MonthDays.drain, MonthDays.size] using this
  have hbwd0 : (⟨ym, ⟨1, 31⟩⟩ : MonthDays).drainBack =
      (List.range 30).map (fun i => ⟨ym.year, ym.month, 31 - 1 - (i : Int)⟩) := by
    have := MonthDays.drainBackAux_spec 30 ⟨ym, ⟨1, 31⟩⟩ (by norm_num) (by norm_num)
      (by simp only []; omega)
    simpa [MonthDays.drainBack, MonthDays.size] using this
  have hbwd : (⟨ym, ⟨1, 31⟩⟩ : MonthDays).drainBack =
      (List.range 30).map (fun i => ⟨ym.year, ym.month, 30 - (i : Int)⟩) := by
    rw [hbwd0]
    apply List.map_congr_left
    intro i _
    congr 1
  have hrev : ((⟨ym, ⟨1, 31⟩⟩ : MonthDays).drain).reverse =
      (⟨ym, ⟨1, 31⟩⟩ : MonthDays).drainBack := by
    rw [hfwd, hbwd, map_range_reverse]
    apply List.map_congr_left
    intro i hi
    rw [List.mem_range] at hi
    congr 1
    push_cast [Nat.cast_sub (by omega : i ≤ 30 - 1 - 0)]
    omega
  refine ⟨?_, ?_, ?_, ?_⟩
  · rw [hit, hrev]
  · rw [hit, hbwd]
    simp
  · rw [hit, hbwd, List.map_map]
    apply List.map_congr_left
    intro i _
    simp [Function.comp]
  · rw [hit, ← hrev, List.head?_reverse]

/-- Witness for C6 at September 1999, a 30-day month. -/
theorem C6_backward_descending_witness :
    (⟨1999, .September⟩ : YearMonth).day_count = 30 ∧
    (((⟨1999, .September⟩ : YearMonth).days DaySpan.Full).drainBack =
        (((⟨1999, .September⟩ : YearMonth).days DaySpan.Full).drain).reverse ∧
      (((⟨1999, .September⟩ : YearMonth).days DaySpan.Full).drainBack).length = 30 ∧
      (((⟨1999, .September⟩ : YearMonth).days DaySpan.Full).drainBack).map Date.day =
        (List.range 30).map (fun i : Nat => (30 : Int) - (i : Int)) ∧
      (((⟨1999, .September⟩ : YearMonth).days DaySpan.Full).drainBack).head? =
        (((⟨1999, .September⟩ : YearMonth).days DaySpan.Full).drain).getLast?) :=
  ⟨by decide, C6_backward_descending ⟨1999, .September⟩ (by decide)⟩

/-- Closed form of a cursor step in either direction. -/
theorem Range.step_eq (r : Range) (d : Dir) :
    r.step d =
      if r.start < r.stop then
        (match d with
         | .fwd => (some r.start, ⟨r.start + 1, r.stop⟩)
         | .bwd => (some (r.stop - 1), ⟨r.start, r.stop - 1⟩))
      else (none, r) := by
  cases d <;> rfl

/-- A step on an empty cursor consumes nothing and leaves it unchanged. -/
theorem Range.step_none (r : Range) (d : Dir) (h : ¬ r.start < r.stop) :
    r.step d = (none, r) := by
  rw [Range.step_eq, if_neg h]

/-- After any step the cursor's bounds only move inwards. -/
theorem Range.step_bounds (r : Range) (d : Dir) :
    r.start ≤ (r.step d).2.start ∧ (r.step d).2.stop ≤ r.stop := by
  rw [Range.step_eq]
  split
  · cases d
    all_goals dsimp only
    all_goals omega
  · dsimp only
    omega

/-- A consumed day lies in the pre-step cursor and outside the post-step
cursor. -/
theorem Range.step_some {r : Range} {d : Dir} {c : Int}
    (h : (r.step d).1 = some c) :
    r.start < r.stop ∧ r.start ≤ c ∧ c < r.stop ∧
    ¬ ((r.step d).2.start ≤ c ∧ c < (r.step d).2.stop) := by
  by_cases hlt : r.start < r.stop
  · cases d
    · simp [Range.step, Range.next, hlt] at h ⊢
      omega
    · simp [Range.step, Range.next_back, hlt] at h ⊢
      omega
  · rw [Range.step_none r d hlt] at h
    simp at h

/-- Every day consumed over an arbitrary interleaving lies in the initial
cursor. -/
theorem Range.runConsumed_mem :
    ∀ (dirs : List Dir) (r : Range) (c : Int),
      c ∈ r.runConsumed dirs → r.start ≤ c ∧ c < r.stop := by
  intro dirs
  induction dirs with
  | nil =>
    intro r c hc
    simp [Range.runConsumed] at hc
  | cons d ds ih =>
    intro r c hc
    have hsub := Range.step_bounds r d
    rw [Range.runConsumed] at hc
    rcases hs : (r.step d).1 with _ | c'
    · rw [hs] at hc
      have := ih (r.step d).2 c hc
      omega
    · rw [hs] at hc
      rcases List.mem_cons.mp hc with h1 | h1
      · subst h1
        have := Range.step_some hs
        omega
      · have := ih (r.step d).2 c h1
        omega

/-- The days consumed over an arbitrary interleaving are pairwise distinct. -/
theorem Range.runConsumed_nodup :
    ∀ (dirs : List Dir) (r : Range), (r.runConsumed dirs).Nodup := by
  intro dirs
  induction dirs with
  | nil =>
    intro r
    simp [Range.runConsumed]
  | cons d ds ih =>
    intro r
    rw [Range.runConsumed]
    rcases hs : (r.step d).1 with _ | c
    · exact ih (r.step d).2
    · refine List.nodup_cons.mpr ⟨?_, ih (r.step d).2⟩
      intro hmem
      have hin := Range.runConsumed_mem ds (r.step d).2 c hmem
      have := Range.step_some hs
      omega

/-- Lemma: a `MonthDays` step is the cursor step with the consumed day piped through
the fallible date constructor. -/
theorem MonthDays.step_decompose (it : MonthDays) (d : Dir) :
    (it.step d).2.range = (it.range.step d).2 ∧
    (it.step d).2.ym = it.ym ∧
    (it.step d).1 =
      ((it.range.step d).1).bind (fun x => Date.ymd it.ym.year it.ym.month x) := by
  cases d <;> exact ⟨rfl, rfl, rfl⟩

/-- The day numbers of the dates produced over an arbitrary interleaving form
a sublist of the days consumed by the bare cursor. -/
theorem MonthDays.runOutputs_days_sublist :
    ∀ (dirs : List Dir) (it : MonthDays),
      (((it.runOutputs dirs).filterMap id).map Date.day).Sublist
        (it.range.runConsumed dirs) := by
  intro dirs
  induction dirs with
  | nil =>
    intro it
    simp [MonthDays.runOutputs, Range.runConsumed]
  | cons d ds ih =>
    intro it
    obtain ⟨hrange, -, hout⟩ := MonthDays.step_decompose it d
    have ihs : (((MonthDays.runOutputs (it.step d).2 ds).filterMap id).map
        Date.day).Sublist ((it.range.step d).2.runConsumed ds) := by
      have := ih (it.step d).2
      rwa [hrange] at this
    rw [MonthDays.runOutputs, Range.runConsumed]
    rcases hs : (it.range.step d).1 with _ | c
    · rw [hs] at hout
      simp only [Option.none_bind] at hout
      rw [hout]
      simpa using ihs
    · rw [hs] at hout
      simp only [Option.some_bind] at hout
      rcases hy : Date.ymd it.ym.year it.ym.month c with _ | dt
      · rw [hy] at hout
        rw [hout]
        have hstep : (((MonthDays.runOutputs (it.step d).2 ds).filterMap id).map
            Date.day).Sublist (c :: (it.range.step d).2.runConsumed ds) :=
          List.Sublist.cons c ihs
        simpa using hstep
      · rw [hy] at hout
        rw [hout]
        have hd : dt.day = c := Date.ymd_day hy
        have hstep : (dt.day :: ((MonthDays.runOutputs (it.step d).2 ds).filterMap
            id).map Date.day).Sublist (c :: (it.range.step d).2.runConsumed ds) := by
          rw [hd]
          exact List.Sublist.cons₂ c ihs
        simpa using hstep

/-- From an empty cursor, every call of an arbitrary interleaving yields
nothing. -/
theorem MonthDays.runOutputs_empty :
    ∀ (dirs : List Dir) (it : MonthDays),
      it.range.stop ≤ it.range.start → ∀ o ∈ it.runOutputs dirs, o = none := by
  intro dirs
  induction dirs with
  | nil =>
    intro it _ o ho
    simp [MonthDays.runOutputs] at ho
  | cons d ds ih =>
    intro it h o ho
    obtain ⟨hrange, -, hout⟩ := MonthDays.step_decompose it d
    have hnone : it.range.step d = (none, it.range) :=
      Range.step_none _ _ (by omega)
    have h1 : (it.step d).1 = none := by
      rw [hout, hnone]
      rfl
    have h2 : (it.step d).2.range = it.range := by
      rw [hrange, hnone]
    rw [MonthDays.runOutputs] at ho
    rcases List.mem_cons.mp ho with h3 | h3
    · rw [h3, h1]
    · exact ih (it.step d).2 (by rw [h2]; omega) o h3

/-- C4: under an arbitrary interleaving of forward and backward calls, each
call removes at most one element (the non-empty case removes exactly the
element at the call's own end of the shared cursor, the empty case removes
none), no day number is ever produced twice, and from an empty cursor every
call of either kind yields nothing. -/
theorem C4_interleaving_no_duplicates (it : MonthDays) (dirs : List Dir) :
    (∀ d : Dir,
      (it.step d).2.range = it.range ∨
      (d = Dir.fwd ∧ it.range.start < it.range.stop ∧
        (it.step d).2.range = ⟨it.range.start + 1, it.range.stop⟩) ∨
      (d = Dir.bwd ∧ it.range.start < it.range.stop ∧
        (it.step d).2.range = ⟨it.range.start, it.range.stop - 1⟩)) ∧
    (((it.runOutputs dirs).filterMap id).map Date.day).Nodup ∧
    (it.range.stop ≤ it.range.start → ∀ o ∈ it.runOutputs dirs, o = none) := by
  refine ⟨?_, ?_, MonthDays.runOutputs_empty dirs it⟩
  · intro d
    obtain ⟨hrange, -, -⟩ := MonthDays.step_decompose it d
    by_cases hlt : it.range.start < it.range.stop
    · cases d
      · right
        left
        refine ⟨rfl, hlt, ?_⟩
        rw [hrange, Range.step_eq, if_pos hlt]
      · right
        right
        refine ⟨rfl, hlt, ?_⟩
        rw [hrange, Range.step_eq, if_pos hlt]
    · left
      rw [hrange, Range.step_none _ _ hlt]
  · exact (MonthDays.runOutputs_days_sublist dirs it).nodup
      (Range.runConsumed_nodup dirs it.range)

/-- Witness for C4 at an exhausted cursor `[5, 5)` over September 1999. -/
theorem C4_interleaving_no_duplicates_witness :
    ((((⟨⟨1999, .September⟩, ⟨5, 5⟩⟩ : MonthDays).runOutputs
        [Dir.fwd, Dir.bwd, Dir.fwd]).filterMap id).map Date.day).Nodup ∧
    (∀ o ∈ (⟨⟨1999, .September⟩, ⟨5, 5⟩⟩ : MonthDays).runOutputs
        [Dir.fwd, Dir.bwd, Dir.fwd], o = none) :=
  ⟨(C4_interleaving_no_duplicates ⟨⟨1999, .September⟩, ⟨5, 5⟩⟩
      [Dir.fwd, Dir.bwd, Dir.fwd]).2.1,
   (C4_interleaving_no_duplicates ⟨⟨1999, .September⟩, ⟨5, 5⟩⟩
      [Dir.fwd, Dir.bwd, Dir.fwd]).2.2 (by decide)⟩

/-- C5 counterexample: the resolved interval of the explicit span `[5, 3)`
has `start > end`, refuting "the Interval's start is always ≤ its end once
resolved" as a universal statement over spans. -/
theorem C5_start_le_stop_counterexample :
    ¬ (((DaySpan.Explicit 5 3).get_range ⟨1999, .September⟩).start ≤
       ((DaySpan.Explicit 5 3).get_range ⟨1999, .September⟩).stop) := by
  decide

/-- C5 amended: the full span always resolves with `start ≤ end`; whenever
`start ≤ end` holds it is preserved by every forward or backward step; the
cursor only shrinks from its two ends and an empty cursor is left untouched
(so it never shrinks past emptiness); and every day number fed to date
construction — on one step or over any interleaving — comes from the
cursor's interval. -/
theorem C5_amended_interval_invariants (ym : YearMonth) (it : MonthDays)
    (d : Dir) :
    ((DaySpan.Full.get_range ym).start ≤ (DaySpan.Full.get_range ym).stop) ∧
    (it.range.start ≤ it.range.stop →
      (it.step d).2.range.start ≤ (it.step d).2.range.stop) ∧
    (it.range.start ≤ (it.step d).2.range.start ∧
      (it.step d).2.range.stop ≤ it.range.stop) ∧
    (it.range.stop ≤ it.range.start → (it.step d).2.range = it.range) ∧
    (∀ c : Int, (it.range.step d).1 = some c →
      it.range.start ≤ c ∧ c < it.range.stop) ∧
    (∀ dirs : List Dir, ∀ c ∈ it.range.runConsumed dirs,
      it.range.start ≤ c ∧ c < it.range.stop) := by
  obtain ⟨hrange, -, -⟩ := MonthDays.step_decompose it d
  obtain ⟨hb1, hb2⟩ := Range.step_bounds it.range d
  refine ⟨?_, ?_, ⟨by rw [hrange]; exact hb1, by rw [hrange]; exact hb2⟩, ?_, ?_, ?_⟩
  · have := ym.day_count_bounds
    simp only [DaySpan.get_range]
    omega
  · intro hle
    rw [hrange, Range.step_eq]
    split
    · cases d
      all_goals dsimp only
      all_goals omega
    · dsimp only
      omega
  · intro hge
    rw [hrange, Range.step_none _ _ (by omega)]
  · intro c hc
    have := Range.step_some hc
    omega
  · intro dirs c hc
    exact Range.runConsumed_mem dirs it.range c hc

/-- Witness for C5 amended on the cursor `[1, 31)` over September 1999,
stepped forward. -/
theorem C5_amended_interval_invariants_witness :
    ((⟨⟨1999, .September⟩, ⟨1, 31⟩⟩ : MonthDays).step Dir.fwd).2.range.start ≤
      ((⟨⟨1999, .September⟩, ⟨1, 31⟩⟩ : MonthDays).step Dir.fwd).2.range.stop ∧
    (∀ c : Int, (((⟨1, 31⟩ : Range)).step Dir.fwd).1 = some c →
      (1 : Int) ≤ c ∧ c < 31) :=
  ⟨(C5_amended_interval_invariants ⟨1999, .September⟩
      ⟨⟨1999, .September⟩, ⟨1, 31⟩⟩ Dir.fwd).2.1 (by decide),
   (C5_amended_interval_invariants ⟨1999, .September⟩
      ⟨⟨1999, .September⟩, ⟨1, 31⟩⟩ Dir.fwd).2.2.2.2.1⟩

end Datetime
